import Mathlib

/-!
Shallow embedding of `gateway.py` (pinboard-to-wordpress): an RSS → WordPress
publishing pipeline.  Strings are modelled as `List Char`; the external world
(HTTP responses, SQLite success/failure, the parsed feed, the markdown
renderer) is an explicit environment record, and the pipeline is a fold that
threads the ledger state and an event trace.
-/

/-- Characters Python's `str.split()` (no argument) treats as whitespace
(ASCII subset, as used for tag strings). -/
def isSpaceChar (c : Char) : Bool :=
  c = ' ' || c = '\t' || c = '\n' || c = '\r' || c = '\x0c' || c = '\x0b'

/-- Fuel-driven worker for `str.split()`: split on runs of whitespace,
discarding empty fields.  Fuel `s.length` always suffices. -/
def splitWsGo : Nat → List Char → List (List Char)
  | 0, _ => []
  | _, [] => []
  | fuel+1, c :: cs =>
    if isSpaceChar c then splitWsGo fuel cs
    else (c :: cs.takeWhile (fun d => not (isSpaceChar d))) ::
      splitWsGo fuel (cs.dropWhile (fun d => not (isSpaceChar d)))

/-- Python `str.split()` with no separator argument. -/
def splitWs (s : List Char) : List (List Char) := splitWsGo s.length s

/-! ## Model of Python's `html.unescape` (used by `_clean_content`)

`html.unescape` makes a single left-to-right pass, replacing each character
reference `&name;` / `&#nnn;` / `&#xhh;` by its expansion; replacement text is
not rescanned.  The named-entity table is restricted here to a representative
core of the html5 table (`amp`, `lt`, `gt`, `quot`, `nbsp`, with and without
the trailing semicolon where the real table has both), and numeric references
map out-of-range or surrogate code points to U+FFFD, omitting the
windows-1252 remap table of the stdlib.  The structure of the algorithm — the
charref regex `&(#[0-9]+;?|#[xX][0-9a-fA-F]+;?|[^\t\n\f <&#;]{1,32};?)`, the
longest-prefix fallback lookup, and the literal `&` on lookup failure — is
reproduced from CPython's `html.__init__`. -/

/-- Entity names and their expansions (core subset of the html5 table;
entries without `;` mirror the table's semicolonless legacy entries). -/
def entityTable : List (List Char × List Char) :=
  [("amp;".toList, "&".toList), ("amp".toList, "&".toList),
   ("lt;".toList, "<".toList), ("lt".toList, "<".toList),
   ("gt;".toList, ">".toList), ("gt".toList, ">".toList),
   ("quot;".toList, "\"".toList), ("quot".toList, "\"".toList),
   ("nbsp;".toList, " ".toList)]

/-- Lookup in the entity table. -/
def lookupEntity (k : List Char) : Option (List Char) :=
  (entityTable.find? (fun p => p.1 == k)).map (fun p => p.2)

/-- Characters allowed in a named character reference:
the regex class `[^\t\n\f <&#;]`. -/
def charrefNameChar (c : Char) : Bool :=
  not (c = '\t' || c = '\n' || c = '\x0c' || c = ' ' || c = '<' || c = '&' ||
    c = '#' || c = ';')

/-- Decimal digit value. -/
def decDigit (c : Char) : Option Nat :=
  if '0' ≤ c ∧ c ≤ '9' then some (c.toNat - '0'.toNat) else none

/-- Hexadecimal digit value. -/
def hexDigit (c : Char) : Option Nat :=
  if '0' ≤ c ∧ c ≤ '9' then some (c.toNat - '0'.toNat)
  else if 'a' ≤ c ∧ c ≤ 'f' then some (c.toNat - 'a'.toNat + 10)
  else if 'A' ≤ c ∧ c ≤ 'F' then some (c.toNat - 'A'.toNat + 10)
  else none

/-- Digits-to-number accumulation in the given base. -/
def digitsToNat (base : Nat) (val : Char → Option Nat) (ds : List Char) : Nat :=
  ds.foldl (fun a c => a * base + (val c).getD 0) 0

/-- `chr(num)` guarded the way `html.unescape` guards it: surrogates and
out-of-range code points become U+FFFD. -/
def charFromCode (n : Nat) : List Char :=
  if n.isValidChar then [Char.ofNat n] else ['�']

/-- Drop one trailing semicolon (Python's `s.rstrip(';')` on a group that can
carry at most one). -/
def stripSemi (l : List Char) : List Char :=
  if l.getLast? == some ';' then l.dropLast else l

/-- Longest-prefix fallback of `_replace_charref`: try prefixes of the name
from length `n` down to 2 against the table, returning the expansion plus the
unconsumed tail of the name. -/
def findEntityPrefix (g : List Char) : Nat → Option (List Char × List Char)
  | 0 => none
  | n+1 =>
    if n+1 < 2 then none
    else
      match lookupEntity (g.take (n+1)) with
      | some r => some (r, g.drop (n+1))
      | none => findEntityPrefix g n

/-- CPython's `_replace_charref` applied to the matched group (the text after
`&`): numeric references via `chr`, named references via the table with
longest-prefix fallback, and a literal `&` + group when nothing matches. -/
def replaceCharref (g : List Char) : List Char :=
  match g with
  | '#' :: s =>
    match s with
    | c :: t =>
      if c = 'x' ∨ c = 'X' then charFromCode (digitsToNat 16 hexDigit (stripSemi t))
      else charFromCode (digitsToNat 10 decDigit (stripSemi s))
    | [] => '&' :: g
  | _ =>
    match lookupEntity g with
    | some r => r
    | none =>
      match findEntityPrefix g (g.length - 1) with
      | some p => p.1 ++ p.2
      | none => '&' :: g

/-- Match the charref regex group right after a `&`: returns the matched
group and the rest of the input, or `none` when the regex does not match at
this `&`. -/
def matchCharref (rest : List Char) : Option (List Char × List Char) :=
  match rest with
  | '#' :: r2 =>
    match r2 with
    | c :: r3 =>
      if c = 'x' ∨ c = 'X' then
        let ds := r3.takeWhile (fun d => (hexDigit d).isSome)
        if ds = [] then none
        else
          let rest2 := r3.drop ds.length
          if rest2.head? = some ';' then
            some ('#' :: c :: ds ++ [';'], rest2.tail)
          else some ('#' :: c :: ds, rest2)
      else
        let ds := r2.takeWhile (fun d => (decDigit d).isSome)
        if ds = [] then none
        else
          let rest2 := r2.drop ds.length
          if rest2.head? = some ';' then
            some ('#' :: ds ++ [';'], rest2.tail)
          else some ('#' :: ds, rest2)
    | [] => none
  | _ =>
    let run := (rest.takeWhile charrefNameChar).take 32
    if run = [] then none
    else
      let rest2 := rest.drop run.length
      if rest2.head? = some ';' then some (run ++ [';'], rest2.tail)
      else some (run, rest2)

/-- Fuel-driven worker for `html.unescape`; fuel `s.length` suffices since
every step consumes at least one input character. -/
def unescapeGo : Nat → List Char → List Char
  | 0, s => s
  | _, [] => []
  | fuel+1, c :: rest =>
    if c = '&' then
      match matchCharref rest with
      | some g => replaceCharref g.1 ++ unescapeGo fuel g.2
      | none => c :: unescapeGo fuel rest
    else c :: unescapeGo fuel rest

/-- Python `html.unescape` (see the module comment for the modelled subset). -/
def unescape (s : List Char) : List Char := unescapeGo s.length s

/-- `WordPressRSSPublisher._clean_content`: `html.unescape(content)`. -/
def clean_content (content : List Char) : List Char := unescape content

/-! ## Model of the `urlfinder` autolink pass in `create_post_dict`

The source compiles the regex (taken from markdown-urlize)

  `((([A-Za-z]{3,9}:(?:\/\/)?)(?:[\-;:&=\+\$,\w]+@)?[A-Za-z0-9\.\-]+(:[0-9]+)?|`
  `(?:www\.|[\-;:&=\+\$,\w]+@)[A-Za-z0-9\.\-]+)((?:/[\+~%/\.\w\-_]*)?\??`
  `(?:[\-\+=&;%@\.\w_]*)#?(?:[\.!/\\\w]*))?)`

and runs `urlfinder.sub(r'<\1>', content)`.  Each regex construct is modelled
as a small backtracking parser producing its candidate remainders in the
order a backtracking engine tries them (greedy repetitions longest-first,
alternation left-first, optional groups present-first); the first overall
candidate is the match, as in Python's `re`.  `\w` is modelled as its ASCII
core `[A-Za-z0-9_]`. -/

/-- ASCII letter. -/
def isAsciiAlpha (c : Char) : Bool :=
  ('A' ≤ c ∧ c ≤ 'Z') ∨ ('a' ≤ c ∧ c ≤ 'z')

/-- ASCII digit. -/
def isAsciiDigit (c : Char) : Bool := '0' ≤ c ∧ c ≤ '9'

/-- `\w` (ASCII core). -/
def isWordChar (c : Char) : Bool := isAsciiAlpha c || isAsciiDigit c || c = '_'

/-- Class `[\-;:&=\+\$,\w]` (userinfo part before `@`). -/
def isUserChar (c : Char) : Bool :=
  c = '-' || c = ';' || c = ':' || c = '&' || c = '=' || c = '+' || c = '$' ||
  c = ',' || isWordChar c

/-- Class `[A-Za-z0-9\.\-]` (host). -/
def isHostChar (c : Char) : Bool := isAsciiAlpha c || isAsciiDigit c || c = '.' || c = '-'

/-- Class `[\+~%/\.\w\-_]` (path). -/
def isPathChar (c : Char) : Bool :=
  c = '+' || c = '~' || c = '%' || c = '/' || c = '.' || c = '-' || c = '_' || isWordChar c

/-- Class `[\-\+=&;%@\.\w_]` (query). -/
def isQueryChar (c : Char) : Bool :=
  c = '-' || c = '+' || c = '=' || c = '&' || c = ';' || c = '%' || c = '@' ||
  c = '.' || c = '_' || isWordChar c

/-- Class `[\.!/\\\w]` (fragment). -/
def isFragChar (c : Char) : Bool :=
  c = '.' || c = '!' || c = '/' || c = '\\' || isWordChar c

/-- A parser piece: candidate remainders after consuming a match, in
backtracking priority order. -/
abbrev RxCands := List Char → List (List Char)

/-- Literal text. -/
def rxLit (t : List Char) : RxCands := fun s =>
  if t.isPrefixOf s then [s.drop t.length] else []

/-- Single character from a class. -/
def rxChar (f : Char → Bool) : RxCands := fun s =>
  match s with
  | c :: r => if f c then [r] else []
  | [] => []

/-- Greedy `class*`: candidates from longest run down to the empty run. -/
def rxStar (f : Char → Bool) : RxCands := fun s =>
  let k := (s.takeWhile f).length
  (List.range (k+1)).map (fun i => s.drop (k - i))

/-- Greedy `class+`. -/
def rxPlus (f : Char → Bool) : RxCands := fun s =>
  let k := (s.takeWhile f).length
  (List.range k).map (fun i => s.drop (k - i))

/-- Greedy `class{lo,hi}`. -/
def rxRep (f : Char → Bool) (lo hi : Nat) : RxCands := fun s =>
  let k := min (s.takeWhile f).length hi
  if k < lo then []
  else (List.range (k + 1 - lo)).map (fun i => s.drop (k - i))

/-- Sequencing. -/
def rxSeq (p q : RxCands) : RxCands := fun s => (p s).flatMap q

/-- Alternation, left-first. -/
def rxAlt (p q : RxCands) : RxCands := fun s => p s ++ q s

/-- Greedy `(...)?`. -/
def rxOpt (p : RxCands) : RxCands := fun s => p s ++ [s]

/-- `[A-Za-z]{3,9}:(?:\/\/)?` — the scheme part. -/
def rxScheme : RxCands :=
  rxSeq (rxRep isAsciiAlpha 3 9) (rxSeq (rxChar (fun c => c = ':')) (rxOpt (rxLit "//".toList)))

/-- `[\-;:&=\+\$,\w]+@` — userinfo. -/
def rxUser : RxCands := rxSeq (rxPlus isUserChar) (rxChar (fun c => c = '@'))

/-- First alternative: scheme, optional userinfo, host, optional port. -/
def rxAltA : RxCands :=
  rxSeq rxScheme (rxSeq (rxOpt rxUser) (rxSeq (rxPlus isHostChar)
    (rxOpt (rxSeq (rxChar (fun c => c = ':')) (rxPlus isAsciiDigit)))))

/-- Second alternative: `(?:www\.|userinfo@)host`. -/
def rxAltB : RxCands :=
  rxSeq (rxAlt (rxLit "www.".toList) rxUser) (rxPlus isHostChar)

/-- `((?:/[path]*)?\??(?:[query]*)#?(?:[frag]*))?` — the trailing group. -/
def rxTail : RxCands :=
  rxSeq (rxOpt (rxSeq (rxChar (fun c => c = '/')) (rxStar isPathChar)))
    (rxSeq (rxOpt (rxChar (fun c => c = '?')))
      (rxSeq (rxStar isQueryChar)
        (rxSeq (rxOpt (rxChar (fun c => c = '#'))) (rxStar isFragChar))))

/-- The whole `urlfinder` pattern. -/
def rxUrl : RxCands := rxSeq (rxAlt rxAltA rxAltB) (rxOpt rxTail)

/-- Fuel-driven `re.sub(urlfinder, r'<\1>', ·)` scanner: at each position try
the pattern; on a match, wrap the matched text in angle brackets and resume
after it, otherwise emit the character and advance.  Fuel `s.length`
suffices since every step consumes at least one character. -/
def urlScanGo : Nat → List Char → List Char
  | 0, s => s
  | _, [] => []
  | fuel+1, c :: cs =>
    match (rxUrl (c :: cs)).head? with
    | some rem =>
      let n := (c :: cs).length - rem.length
      if n = 0 then c :: urlScanGo fuel cs
      else '<' :: (c :: cs).take n ++ '>' :: urlScanGo fuel rem
    | none => c :: urlScanGo fuel cs

/-- The autolink pass `urlfinder.sub(r'<\1>', content)`. -/
def urlfinder_sub (s : List Char) : List Char := urlScanGo s.length s

/-! ## Blockquote rewrite and post assembly (`create_post_dict`) -/

/-- The literal pattern of `re.sub(r'<blockquote>', ...)`. -/
def bqPat : List Char := "<blockquote>".toList

/-- Its replacement `<blockquote markdown="1">`. -/
def bqRep : List Char := "<blockquote markdown=\"1\">".toList

/-- `re.sub(r'<blockquote>', '<blockquote markdown=\"1\">', ·)`: replace every
non-overlapping occurrence of the literal pattern, left to right. -/
def replaceBQ : List Char → List Char
  | [] => []
  | c :: cs =>
    if bqPat.isPrefixOf (c :: cs) then bqRep ++ replaceBQ ((c :: cs).drop bqPat.length)
    else c :: replaceBQ cs
termination_by s => s.length
decreasing_by
  · simp only [List.length_drop, List.length_cons]
    exact Nat.sub_lt (Nat.succ_pos _) (by decide)
  · simp

/-- The string handed to `markdown.markdown` inside `create_post_dict`:
autolinking first, then the blockquote rewrite. -/
def pre_markdown_content (content : List Char) : List Char :=
  replaceBQ (urlfinder_sub content)

/-- One tag anchor: `<a class="delicioustag" href="{TAG_PREFIX}/t:{tag}">{tag}</a>`
(`tagBase` stands for the `TAG_PREFIX` environment value). -/
def anchor_for_tag (tagBase tag : List Char) : List Char :=
  "<a class=\"delicioustag\" href=\"".toList ++ tagBase ++ "/t:".toList ++ tag ++
    "\">".toList ++ tag ++ "</a>".toList

/-- `" ".join(tag_htmls)` over the per-tag anchors. -/
def tag_html_fragment (tagBase : List Char) (tags : List (List Char)) : List Char :=
  List.intercalate " ".toList (tags.map (anchor_for_tag tagBase))

/-- The dict returned by `create_post_dict`. -/
structure PostDict where
  title : List Char
  content : List Char
  status : List Char
deriving DecidableEq

/-- `WordPressRSSPublisher.create_post_dict`: autolink, blockquote rewrite,
markdown rendering (the external renderer is the parameter `md`), tag-anchor
fragment, and final assembly with the source backlink.  `NO_POST` is `False`
in the source, so the debug print branch is dead. -/
def create_post_dict (tagBase : List Char) (md : List Char → List Char)
    (title content link : List Char) (tags : List (List Char)) (status : List Char) :
    PostDict :=
  let rendered := md (pre_markdown_content content)
  let tag_html := tag_html_fragment tagBase tags
  let content_with_source :=
    "<ul><li><p>\n<a class=\"deliciouslink\" href=\"".toList ++ link ++
      "\" title=\"".toList ++ title ++ "\">".toList ++ title ++
      "</a></p>\n\n".toList ++ rendered ++
      "\n\n<p class=\"taglist\">Tags: ".toList ++ tag_html ++
      "</p></li></ul>".toList
  ⟨title, content_with_source, status⟩

/-! ## Data model and effect environment for the pipeline -/

/-- `NO_POST` global of the source (line 25): `False`. -/
def NO_POST : Bool := false

/-- A normalized feed entry as the pipeline reads it from `feedparser`
(`entry.get` defaults modelled by empty strings / `Option`); `tags` holds the
`term` strings of the entry's taxonomy topics. -/
structure FeedEntry where
  link : List Char
  title : List Char
  description : List Char
  summary : List Char
  published : Option (List Char)
  tags : List (List Char)
deriving DecidableEq

/-- A row of the `published_items` table (the `created_at` column is
database-assigned and carries no pipeline-visible information). -/
structure Row where
  link : List Char
  title : List Char
  published_date : List Char
  wordpress_post_id : Int
deriving DecidableEq

/-- Outcome of one `requests` call: a transport-level exception, or a
response with its status code, body text, and the integer `id` its JSON body
would yield. -/
inductive ReqOutcome where
  | exn : ReqOutcome
  | resp : Nat → List Char → Int → ReqOutcome
deriving DecidableEq

/-- What `create_post` logs on its failure paths. -/
inductive CPLog where
  | authFailMsg : CPLog
  | errMsg : CPLog
  | respBody : List Char → CPLog
deriving DecidableEq

/-- Observable events of a run: the feed fetch, and each HTTP publish
attempt (one per `create_post` invocation). -/
inductive Ev where
  | fetch : Ev
  | publish : List Char → Ev
deriving DecidableEq

/-- The external world of one process invocation: `tagBase` is `TAG_PREFIX`;
`md` the markdown renderer; `feed` the parsed feed (`none` for a
fetch/parse failure); `now_iso` the `datetime.now().isoformat()` fallback;
`authResp` the `/users/me` outcome; `postResp` the `POST /posts` outcome per
item link; the three `db*` fields say where SQLite raises. -/
structure Env where
  tagBase : List Char
  md : List Char → List Char
  feed : Option (List FeedEntry)
  now_iso : List Char
  authResp : ReqOutcome
  postResp : List Char → ReqOutcome
  dbInitFails : Bool
  dbReadFails : List Char → Bool
  dbWriteFails : List Char → Bool

/-- `requests.Response.raise_for_status` raises exactly for 4xx/5xx. -/
def raisesForStatus (st : Nat) : Prop := 400 ≤ st ∧ st < 600

instance (st : Nat) : Decidable (raisesForStatus st) := by
  unfold raisesForStatus; infer_instance

/-- `WordPressRSSPublisher._verify_auth`: `true` iff the auth check returns
without raising (401 raises explicitly, 4xx/5xx raise via
`raise_for_status`, transport errors raise). -/
def verify_auth (env : Env) : Bool :=
  match env.authResp with
  | ReqOutcome.exn => false
  | ReqOutcome.resp st _ _ =>
    if st = 401 then false
    else if raisesForStatus st then false
    else true

/-- `WordPressRSSPublisher._is_item_published`: `False` under `NO_POST`,
`False` when the SQLite query raises (the error is only logged), otherwise
whether a row with this link exists. -/
def is_item_published (env : Env) (db : List Row) (link : List Char) : Bool :=
  if NO_POST then false
  else if env.dbReadFails link then false
  else db.any (fun r => r.link == link)

/-- `WordPressRSSPublisher._record_published_item`: no-op under `NO_POST`;
a raising INSERT (including the PRIMARY KEY violation when the link already
has a row) is logged and leaves the table unchanged; otherwise the row is
appended. -/
def record_published_item (env : Env) (db : List Row)
    (link title published_date : List Char) (wordpress_post_id : Int) : List Row :=
  if NO_POST then db
  else if env.dbWriteFails link then db
  else if db.any (fun r => r.link == link) then db
  else db ++ [⟨link, title, published_date, wordpress_post_id⟩]

/-- `WordPressRSSPublisher._extract_tags_from_rss`: split every topic's
`term` string on whitespace and concatenate. -/
def extract_tags (entry : FeedEntry) : List (List Char) :=
  (entry.tags.map splitWs).flatten

/-- `WordPressRSSPublisher.create_post`: build the post dict, POST it, and
map the outcome — `None` plus logs on 401, on 4xx/5xx (via
`raise_for_status`) and on transport exceptions, the parsed JSON (its `id`)
on success.  All failure paths are caught, so the function is total. -/
def create_post (env : Env) (title content link : List Char)
    (tags : List (List Char)) (status : List Char) : Option Int × List CPLog :=
  let _data := create_post_dict env.tagBase env.md title content link tags status
  if NO_POST then (none, [])
  else
    match env.postResp link with
    | ReqOutcome.exn => (none, [CPLog.errMsg])
    | ReqOutcome.resp st body pid =>
      if st = 401 then (none, [CPLog.authFailMsg, CPLog.respBody body])
      else if raisesForStatus st then (none, [CPLog.errMsg, CPLog.respBody body])
      else (some pid, [])

/-- The value component of `create_post` as a function of the per-link HTTP
outcome alone. -/
def post_outcome (env : Env) (link : List Char) : Option Int :=
  match env.postResp link with
  | ReqOutcome.exn => none
  | ReqOutcome.resp st _ pid =>
    if st = 401 then none
    else if raisesForStatus st then none
    else some pid

/-- One iteration of the `for entry in reversed(feed.entries)` loop of
`post_feed_items`, threading the ledger and the event trace. -/
def process_entry (env : Env) (post_status : List Char)
    (st : List Row × List Ev) (entry : FeedEntry) : List Row × List Ev :=
  let db := st.1
  let tr := st.2
  let link := entry.link
  if is_item_published env db link then (db, tr)
  else
    let title := entry.title
    let content0 := if entry.description = [] then entry.summary else entry.description
    let published_date := entry.published.getD env.now_iso
    let tags := extract_tags entry
    let content := clean_content content0
    let result := (create_post env title content link tags post_status).1
    let tr2 := tr ++ [Ev.publish link]
    match result with
    | some pid => (record_published_item env db link title published_date pid, tr2)
    | none => (db, tr2)

/-- `WordPressRSSPublisher.post_feed_items`: fetch the feed (recording the
attempt), return at once on a fetch/parse failure, otherwise run the loop
over the reversed entry list. -/
def post_feed_items (env : Env) (post_status : List Char) (db : List Row) :
    List Row × List Ev :=
  match env.feed with
  | none => (db, [Ev.fetch])
  | some entries => entries.reverse.foldl (process_entry env post_status) (db, [Ev.fetch])

/-- `main`: construct the publisher (`_init_database` then `_verify_auth`,
either of which aborts by raising — caught and logged at top level), then
`post_feed_items(feed_url, post_status="publish")`. -/
def main_run (env : Env) (db : List Row) : List Row × List Ev :=
  if env.dbInitFails then (db, [])
  else if verify_auth env then post_feed_items env "publish".toList db
  else (db, [])

/-! ## Occurrence counting, for the blockquote-rewrite claim -/

/-- Number of positions of `s` at which the pattern `p` occurs. -/
def countOcc (p : List Char) : List Char → Nat
  | [] => 0
  | c :: cs => (if p <+: (c :: cs) then 1 else 0) + countOcc p cs

/-- No nonempty proper suffix of `a` that is shorter than `p` is a prefix of
`p`: appending anything to `a` then creates no occurrence of `p` straddling
the boundary. -/
def noStraddle (p a : List Char) : Prop :=
  ∀ t ∈ a.tails, t = [] ∨ p.length ≤ t.length ∨ ¬ t <+: p

instance (p a : List Char) : Decidable (noStraddle p a) := by
  unfold noStraddle; infer_instance

theorem prefix_append_cases {p y : List Char} (x : List Char) (h : p <+: y ++ x) :
    p <+: y ∨ y <+: p := by
  rcases Nat.le_total p.length y.length with hl | hl
  · left
    rw [List.prefix_iff_eq_take] at h ⊢
    rwa [List.take_append_of_le_length hl] at h
  · right
    exact List.prefix_of_prefix_length_le (List.prefix_append y x) h hl

theorem countOcc_append (p a x : List Char) (h : noStraddle p a) :
    countOcc p (a ++ x) = countOcc p a + countOcc p x := by
  induction a with
  | nil => simp [countOcc]
  | cons c as ih =>
    have has : noStraddle p as := by
      intro t ht
      exact h t (by rw [List.tails_cons]; exact List.mem_cons_of_mem _ ht)
    have hself := h (c :: as) (by rw [List.tails_cons]; exact List.mem_cons_self _ _)
    have hind : (p <+: (c :: as) ++ x) ↔ (p <+: c :: as) := by
      constructor
      · intro hp
        rcases prefix_append_cases x hp with h1 | h2
        · exact h1
        · rcases hself with h0 | hlen | hnp
          · exact absurd h0 (by simp)
          · exact (List.IsPrefix.eq_of_length_le h2 hlen).symm ▸ List.prefix_rfl
          · exact absurd h2 hnp
      · intro hp
        exact hp.trans (List.prefix_append _ _)
    show (if p <+: (c :: (as ++ x)) then 1 else 0) + countOcc p (as ++ x) =
      ((if p <+: c :: as then 1 else 0) + countOcc p as) + countOcc p x
    rw [ih has, if_congr (by simpa using hind) rfl rfl]
    omega

theorem countOcc_nil (p : List Char) : countOcc p [] = 0 := rfl

/-- Tail of `bqPat` after its leading `<`. -/
def bqPatTail : List Char := "blockquote>".toList

/-- Tail of `bqRep` after its leading `<`. -/
def bqRepTail : List Char := "blockquote markdown=\"1\">".toList

theorem bqPat_eq : bqPat = '<' :: bqPatTail := rfl

theorem bqRep_eq : bqRep = '<' :: bqRepTail := rfl

theorem replaceBQ_nil : replaceBQ [] = [] := by rw [replaceBQ]

theorem replaceBQ_cons (c : Char) (cs : List Char) :
    replaceBQ (c :: cs) =
      if bqPat.isPrefixOf (c :: cs) then bqRep ++ replaceBQ ((c :: cs).drop bqPat.length)
      else c :: replaceBQ cs := by
  rw [replaceBQ]

theorem noStraddle_bqPat_bqRep : noStraddle bqPat bqRep := by decide

theorem noStraddle_bqPat_bqPat : noStraddle bqPat bqPat := by decide

theorem noStraddle_bqRep_bqPat : noStraddle bqRep bqPat := by decide

theorem noStraddle_bqRep_bqRep : noStraddle bqRep bqRep := by decide

theorem countOcc_bqPat_bqRep : countOcc bqPat bqRep = 0 := by decide

theorem countOcc_bqPat_bqPat : countOcc bqPat bqPat = 1 := by decide

theorem countOcc_bqRep_bqPat : countOcc bqRep bqPat = 0 := by decide

theorem countOcc_bqRep_bqRep : countOcc bqRep bqRep = 1 := by decide

/-- A `<`-free prefix of the rewrite's output is a prefix of its input. -/
theorem replaceBQ_ltFree_prefix (cs : List Char) :
    ∀ t, (∀ c ∈ t, c ≠ '<') → t <+: replaceBQ cs → t <+: cs := by
  induction cs using replaceBQ.induct with
  | case1 =>
    intro t _ h
    rw [replaceBQ_nil, List.prefix_nil] at h
    exact h ▸ List.nil_prefix
  | case2 c cs hm _ =>
    intro t ht hp
    rw [replaceBQ_cons, if_pos hm] at hp
    cases t with
    | nil => exact List.nil_prefix
    | cons a t' =>
      rw [show bqRep ++ replaceBQ ((c :: cs).drop bqPat.length) =
        '<' :: (bqRepTail ++ replaceBQ ((c :: cs).drop bqPat.length)) from rfl,
        List.cons_prefix_cons] at hp
      exact absurd hp.1 (ht a (List.mem_cons_self _ _))
  | case3 c cs hm ih =>
    intro t ht hp
    rw [replaceBQ_cons, if_neg hm] at hp
    cases t with
    | nil => exact List.nil_prefix
    | cons a t' =>
      rw [List.cons_prefix_cons] at hp ⊢
      exact ⟨hp.1, ih t' (fun d hd => ht d (List.mem_cons_of_mem _ hd)) hp.2⟩

/-- A `<`-free prefix of the rewrite's input survives as a prefix of its
output. -/
theorem replaceBQ_ltFree_prefix_mono (cs : List Char) :
    ∀ t, (∀ c ∈ t, c ≠ '<') → t <+: cs → t <+: replaceBQ cs := by
  induction cs using replaceBQ.induct with
  | case1 =>
    intro t _ h
    rw [List.prefix_nil] at h
    exact h ▸ List.nil_prefix
  | case2 c cs hm _ =>
    intro t ht hp
    cases t with
    | nil => exact List.nil_prefix
    | cons a t' =>
      have hc : c = '<' := by
        have := (List.isPrefixOf_iff_prefix).1 hm
        rw [bqPat_eq, List.cons_prefix_cons] at this
        exact this.1.symm
      rw [List.cons_prefix_cons] at hp
      exact absurd (hp.1.trans hc) (ht a (List.mem_cons_self _ _))
  | case3 c cs hm ih =>
    intro t ht hp
    rw [replaceBQ_cons, if_neg hm]
    cases t with
    | nil => exact List.nil_prefix
    | cons a t' =>
      rw [List.cons_prefix_cons] at hp ⊢
      exact ⟨hp.1, ih t' (fun d hd => ht d (List.mem_cons_of_mem _ hd)) hp.2⟩

/-- After the rewrite, no occurrence of the bare `<blockquote>` tag remains. -/
theorem countOcc_bqPat_replaceBQ (s : List Char) :
    countOcc bqPat (replaceBQ s) = 0 := by
  induction s using replaceBQ.induct with
  | case1 => rw [replaceBQ_nil]; rfl
  | case2 c cs hm ih =>
    rw [replaceBQ_cons, if_pos hm,
      countOcc_append bqPat bqRep _ noStraddle_bqPat_bqRep, ih, countOcc_bqPat_bqRep]
  | case3 c cs hm ih =>
    rw [replaceBQ_cons, if_neg hm]
    have hno : ¬ bqPat <+: c :: replaceBQ cs := by
      intro hcontra
      rw [bqPat_eq, List.cons_prefix_cons] at hcontra
      have : bqPatTail <+: cs :=
        replaceBQ_ltFree_prefix cs bqPatTail (by decide) hcontra.2
      apply hm
      rw [List.isPrefixOf_iff_prefix, bqPat_eq, List.cons_prefix_cons]
      exact ⟨hcontra.1, this⟩
    show (if bqPat <+: c :: replaceBQ cs then 1 else 0) + countOcc bqPat (replaceBQ cs) = 0
    rw [if_neg hno, ih]

/-- Every original bare `<blockquote>` occurrence turns into exactly one
marked `<blockquote markdown="1">` occurrence, and existing marked ones are
preserved. -/
theorem countOcc_bqRep_replaceBQ (s : List Char) :
    countOcc bqRep (replaceBQ s) = countOcc bqPat s + countOcc bqRep s := by
  induction s using replaceBQ.induct with
  | case1 => rw [replaceBQ_nil]; rfl
  | case2 c cs hm ih =>
    have hs : bqPat ++ (c :: cs).drop bqPat.length = c :: cs :=
      (List.prefix_iff_eq_append).1 ((List.isPrefixOf_iff_prefix).1 hm)
    rw [replaceBQ_cons, if_pos hm,
      countOcc_append bqRep bqRep _ noStraddle_bqRep_bqRep, ih]
    conv_rhs => rw [← hs]
    rw [countOcc_append bqPat bqPat _ noStraddle_bqPat_bqPat,
      countOcc_append bqRep bqPat _ noStraddle_bqRep_bqPat,
      countOcc_bqRep_bqRep, countOcc_bqPat_bqPat, countOcc_bqRep_bqPat]
    omega
  | case3 c cs hm ih =>
    rw [replaceBQ_cons, if_neg hm]
    have hiff : (bqRep <+: c :: replaceBQ cs) ↔ (bqRep <+: c :: cs) := by
      rw [bqRep_eq, List.cons_prefix_cons, List.cons_prefix_cons]
      constructor
      · rintro ⟨h1, h2⟩
        exact ⟨h1, replaceBQ_ltFree_prefix cs bqRepTail (by decide) h2⟩
      · rintro ⟨h1, h2⟩
        exact ⟨h1, replaceBQ_ltFree_prefix_mono cs bqRepTail (by decide) h2⟩
    have h0 : ¬ (bqPat <+: c :: cs) := fun hc => hm ((List.isPrefixOf_iff_prefix).2 hc)
    show (if bqRep <+: c :: replaceBQ cs then 1 else 0) + countOcc bqRep (replaceBQ cs) =
      countOcc bqPat (c :: cs) + countOcc bqRep (c :: cs)
    rw [ih, if_congr hiff rfl rfl]
    show _ = ((if bqPat <+: c :: cs then 1 else 0) + countOcc bqPat cs) +
      ((if bqRep <+: c :: cs then 1 else 0) + countOcc bqRep cs)
    rw [if_neg h0]
    omega

/-! ## Ledger counts and trace projections -/

/-- Number of ledger rows whose key is `l`. -/
def countLink (db : List Row) (l : List Char) : Nat :=
  db.countP (fun r => r.link == l)

/-- The links of the publish attempts of a trace, in order. -/
def publishLinks (tr : List Ev) : List (List Char) :=
  tr.filterMap (fun ev => match ev with | Ev.publish l => some l | Ev.fetch => none)

theorem countLink_append (db1 db2 : List Row) (l : List Char) :
    countLink (db1 ++ db2) l = countLink db1 l + countLink db2 l :=
  List.countP_append _ _ _

theorem countLink_pos_iff (db : List Row) (l : List Char) :
    0 < countLink db l ↔ ∃ r ∈ db, r.link = l := by
  unfold countLink
  rw [List.countP_pos_iff]
  simp [beq_iff_eq]

theorem is_item_published_true (env : Env) (db : List Row) (l : List Char)
    (hrow : 0 < countLink db l) (hread : env.dbReadFails l = false) :
    is_item_published env db l = true := by
  unfold is_item_published NO_POST
  simp only [if_false, hread, Bool.false_eq_true]
  rw [List.any_eq_true]
  obtain ⟨r, hr, hl⟩ := (countLink_pos_iff db l).1 hrow
  exact ⟨r, hr, by simp [hl]⟩

theorem is_item_published_zero (env : Env) (db : List Row) (l : List Char)
    (h0 : countLink db l = 0) : is_item_published env db l = false := by
  unfold is_item_published NO_POST
  rw [if_neg (by simp)]
  cases hr : env.dbReadFails l with
  | true => simp
  | false =>
    simp only [Bool.false_eq_true, if_false]
    rw [List.any_eq_false]
    intro r hrm
    have := (List.countP_eq_zero).1 h0 r hrm
    simpa using this

theorem is_item_published_readfail (env : Env) (db : List Row) (l : List Char)
    (hr : env.dbReadFails l = true) : is_item_published env db l = false := by
  unfold is_item_published NO_POST
  rw [if_neg (by simp), if_pos hr]

theorem record_eq_or (env : Env) (db : List Row)
    (link title pd : List Char) (pid : Int) :
    record_published_item env db link title pd pid = db ∨
    record_published_item env db link title pd pid = db ++ [⟨link, title, pd, pid⟩] := by
  unfold record_published_item NO_POST
  rw [if_neg (by simp)]
  by_cases h1 : env.dbWriteFails link = true
  · left; rw [if_pos h1]
  · rw [if_neg h1]
    by_cases h2 : db.any (fun r => r.link == link) = true
    · left; rw [if_pos h2]
    · right; rw [if_neg h2]

theorem record_success (env : Env) (db : List Row)
    (link title pd : List Char) (pid : Int)
    (hw : env.dbWriteFails link = false) (h0 : countLink db link = 0) :
    record_published_item env db link title pd pid = db ++ [⟨link, title, pd, pid⟩] := by
  unfold record_published_item NO_POST
  rw [if_neg (by simp), if_neg (by simp [hw])]
  rw [if_neg]
  intro hcontra
  rw [List.any_eq_true] at hcontra
  obtain ⟨r, hrm, hl⟩ := hcontra
  have := (List.countP_eq_zero).1 h0 r hrm
  exact this hl

theorem countLink_record_other (env : Env) (db : List Row)
    (link title pd : List Char) (pid : Int) (l : List Char) (hne : link ≠ l) :
    countLink (record_published_item env db link title pd pid) l = countLink db l := by
  rcases record_eq_or env db link title pd pid with h | h
  · rw [h]
  · rw [h, countLink_append]
    have : countLink [Row.mk link title pd pid] l = 0 := by
      unfold countLink
      simp [List.countP_cons, beq_iff_eq, hne]
    omega

theorem countLink_record_ge (env : Env) (db : List Row)
    (link title pd : List Char) (pid : Int) (l : List Char) :
    countLink db l ≤ countLink (record_published_item env db link title pd pid) l := by
  rcases record_eq_or env db link title pd pid with h | h
  · rw [h]
  · rw [h, countLink_append]; omega

theorem create_post_fst (env : Env) (title content link : List Char)
    (tags : List (List Char)) (status : List Char) :
    (create_post env title content link tags status).1 = post_outcome env link := by
  unfold create_post post_outcome NO_POST
  rw [if_neg (by simp)]
  cases env.postResp link with
  | exn => rfl
  | resp st body pid =>
    dsimp only
    by_cases h1 : st = 401
    · rw [if_pos h1, if_pos h1]
    · rw [if_neg h1, if_neg h1]
      by_cases h2 : raisesForStatus st
      · rw [if_pos h2, if_pos h2]
      · rw [if_neg h2, if_neg h2]

/-! ## Step lemmas for the per-entry loop -/

theorem process_entry_skip (env : Env) (ps : List Char) (st : List Row × List Ev)
    (e : FeedEntry) (h : is_item_published env st.1 e.link = true) :
    process_entry env ps st e = st := by
  unfold process_entry
  rw [if_pos h]

theorem process_entry_pub_some (env : Env) (ps : List Char) (st : List Row × List Ev)
    (e : FeedEntry) (pid : Int) (h : is_item_published env st.1 e.link = false)
    (hpo : post_outcome env e.link = some pid) :
    process_entry env ps st e =
      (record_published_item env st.1 e.link e.title (e.published.getD env.now_iso) pid,
        st.2 ++ [Ev.publish e.link]) := by
  unfold process_entry
  rw [if_neg (by simp [h])]
  simp only [create_post_fst, hpo]

theorem process_entry_pub_none (env : Env) (ps : List Char) (st : List Row × List Ev)
    (e : FeedEntry) (h : is_item_published env st.1 e.link = false)
    (hpo : post_outcome env e.link = none) :
    process_entry env ps st e = (st.1, st.2 ++ [Ev.publish e.link]) := by
  unfold process_entry
  rw [if_neg (by simp [h])]
  simp only [create_post_fst, hpo]

theorem process_entry_snd_pub (env : Env) (ps : List Char) (st : List Row × List Ev)
    (e : FeedEntry) (h : is_item_published env st.1 e.link = false) :
    (process_entry env ps st e).2 = st.2 ++ [Ev.publish e.link] := by
  cases hpo : post_outcome env e.link with
  | none => rw [process_entry_pub_none env ps st e h hpo]
  | some pid => rw [process_entry_pub_some env ps st e pid h hpo]

theorem process_entry_snd_or (env : Env) (ps : List Char) (st : List Row × List Ev)
    (e : FeedEntry) :
    (process_entry env ps st e).2 = st.2 ∨
    (process_entry env ps st e).2 = st.2 ++ [Ev.publish e.link] := by
  cases hb : is_item_published env st.1 e.link with
  | true => left; rw [process_entry_skip env ps st e hb]
  | false => right; exact process_entry_snd_pub env ps st e hb

theorem process_entry_fst_other (env : Env) (ps : List Char) (st : List Row × List Ev)
    (e : FeedEntry) (l : List Char) (hne : e.link ≠ l) :
    countLink (process_entry env ps st e).1 l = countLink st.1 l := by
  cases hb : is_item_published env st.1 e.link with
  | true => rw [process_entry_skip env ps st e hb]
  | false =>
    cases hpo : post_outcome env e.link with
    | none => rw [process_entry_pub_none env ps st e hb hpo]
    | some pid =>
      rw [process_entry_pub_some env ps st e pid hb hpo]
      exact countLink_record_other env st.1 e.link e.title _ pid l hne

/-! ## Invariants of the whole loop -/

theorem fold_count_mono (env : Env) (ps : List Char) :
    ∀ (es : List FeedEntry) (st : List Row × List Ev) (l : List Char),
    countLink st.1 l ≤ countLink (es.foldl (process_entry env ps) st).1 l := by
  intro es
  induction es with
  | nil => intro st l; exact Nat.le_refl _
  | cons h t ih =>
    intro st l
    rw [List.foldl_cons]
    refine Nat.le_trans ?_ (ih (process_entry env ps st h) l)
    cases hb : is_item_published env st.1 h.link with
    | true => rw [process_entry_skip env ps st h hb]
    | false =>
      cases hpo : post_outcome env h.link with
      | none => rw [process_entry_pub_none env ps st h hb hpo]
      | some pid =>
        rw [process_entry_pub_some env ps st h pid hb hpo]
        exact countLink_record_ge env st.1 h.link h.title _ pid l

theorem fold_trace_mono (env : Env) (ps : List Char) :
    ∀ (es : List FeedEntry) (st : List Row × List Ev) (ev : Ev),
    ev ∈ st.2 → ev ∈ (es.foldl (process_entry env ps) st).2 := by
  intro es
  induction es with
  | nil => intro st ev h; exact h
  | cons h t ih =>
    intro st ev hev
    rw [List.foldl_cons]
    refine ih (process_entry env ps st h) ev ?_
    rcases process_entry_snd_or env ps st h with h2 | h2
    · rw [h2]; exact hev
    · rw [h2]; exact List.mem_append_left _ hev

theorem fold_published_skip (env : Env) (ps : List Char) :
    ∀ (es : List FeedEntry) (st : List Row × List Ev) (l : List Char),
    0 < countLink st.1 l → env.dbReadFails l = false →
    countLink (es.foldl (process_entry env ps) st).1 l = countLink st.1 l ∧
    (Ev.publish l ∈ (es.foldl (process_entry env ps) st).2 → Ev.publish l ∈ st.2) := by
  intro es
  induction es with
  | nil => intro st l _ _; exact ⟨rfl, fun h => h⟩
  | cons h t ih =>
    intro st l hpos hread
    rw [List.foldl_cons]
    cases hb : is_item_published env st.1 h.link with
    | true => rw [process_entry_skip env ps st h hb]; exact ih st l hpos hread
    | false =>
      have hne : h.link ≠ l := by
        intro heq
        rw [heq, is_item_published_true env st.1 l hpos hread] at hb
        cases hb
      have hstep1 : countLink (process_entry env ps st h).1 l = countLink st.1 l :=
        process_entry_fst_other env ps st h l hne
      have hstep2 : (process_entry env ps st h).2 = st.2 ++ [Ev.publish h.link] :=
        process_entry_snd_pub env ps st h hb
      obtain ⟨hc, hm⟩ := ih (process_entry env ps st h) l (by rw [hstep1]; exact hpos) hread
      refine ⟨by rw [hc, hstep1], ?_⟩
      intro hin
      have := hm hin
      rw [hstep2] at this
      rcases List.mem_append.1 this with h1 | h1
      · exact h1
      · exfalso
        rw [List.mem_singleton] at h1
        exact hne (by injection h1 with h2; exact h2.symm)

theorem fold_absent_stable (env : Env) (ps : List Char) :
    ∀ (es : List FeedEntry) (st : List Row × List Ev) (l : List Char),
    post_outcome env l = none →
    countLink (es.foldl (process_entry env ps) st).1 l = countLink st.1 l := by
  intro es
  induction es with
  | nil => intro st l _; rfl
  | cons h t ih =>
    intro st l hpo
    rw [List.foldl_cons]
    by_cases hhl : h.link = l
    · cases hb : is_item_published env st.1 h.link with
      | true => rw [process_entry_skip env ps st h hb]; exact ih st l hpo
      | false =>
        rw [process_entry_pub_none env ps st h hb (by rw [hhl]; exact hpo)]
        exact ih (st.1, st.2 ++ [Ev.publish h.link]) l hpo
    · have hstep : countLink (process_entry env ps st h).1 l = countLink st.1 l :=
        process_entry_fst_other env ps st h l hhl
      rw [ih (process_entry env ps st h) l hpo, hstep]

theorem fold_recorded (env : Env) (ps : List Char) :
    ∀ (es : List FeedEntry) (st : List Row × List Ev) (l : List Char) (pid : Int),
    (∃ e ∈ es, e.link = l) → countLink st.1 l = 0 →
    post_outcome env l = some pid → env.dbWriteFails l = false →
    0 < countLink (es.foldl (process_entry env ps) st).1 l := by
  intro es
  induction es with
  | nil => intro st l pid hex _ _ _; simp at hex
  | cons h t ih =>
    intro st l pid hex h0 hpo hw
    rw [List.foldl_cons]
    by_cases hhl : h.link = l
    · have hb : is_item_published env st.1 h.link = false := by
        rw [hhl]; exact is_item_published_zero env st.1 l h0
      rw [process_entry_pub_some env ps st h pid hb (by rw [hhl]; exact hpo)]
      refine Nat.lt_of_lt_of_le ?_ (fold_count_mono env ps t _ l)
      rw [record_success env st.1 h.link h.title _ pid (by rw [hhl]; exact hw)
        (by rw [hhl]; exact h0), countLink_append]
      have hone : 0 < countLink [Row.mk h.link h.title (h.published.getD env.now_iso) pid] l := by
        unfold countLink
        simp [List.countP_cons, beq_iff_eq, hhl]
      omega
    · obtain ⟨e, he, hel⟩ := hex
      have het : e ∈ t := by
        rcases List.mem_cons.1 he with rfl | het
        · exact absurd hel hhl
        · exact het
      have hstep : countLink (process_entry env ps st h).1 l = countLink st.1 l :=
        process_entry_fst_other env ps st h l hhl
      exact ih (process_entry env ps st h) l pid ⟨e, het, hel⟩ (by rw [hstep]; exact h0) hpo hw

theorem publishLinks_append (a b : List Ev) :
    publishLinks (a ++ b) = publishLinks a ++ publishLinks b :=
  List.filterMap_append _ _ _

theorem fold_order (env : Env) (ps : List Char) :
    ∀ (es : List FeedEntry) (st : List Row × List Ev),
    es.Pairwise (fun a b => a.link ≠ b.link) →
    (∀ e ∈ es, countLink st.1 e.link = 0) →
    publishLinks (es.foldl (process_entry env ps) st).2 =
      publishLinks st.2 ++ es.map (fun e => e.link) := by
  intro es
  induction es with
  | nil => intro st _ _; simp
  | cons h t ih =>
    intro st hpw hz
    rw [List.pairwise_cons] at hpw
    have hb : is_item_published env st.1 h.link = false :=
      is_item_published_zero env st.1 h.link (hz h (List.mem_cons_self _ _))
    have hsnd : (process_entry env ps st h).2 = st.2 ++ [Ev.publish h.link] :=
      process_entry_snd_pub env ps st h hb
    have hz' : ∀ e ∈ t, countLink (process_entry env ps st h).1 e.link = 0 := by
      intro e het
      rw [process_entry_fst_other env ps st h e.link (hpw.1 e het)]
      exact hz e (List.mem_cons_of_mem _ het)
    rw [List.foldl_cons, ih (process_entry env ps st h) hpw.2 hz', hsnd,
      publishLinks_append]
    simp [publishLinks]

theorem fold_readfail_publish (env : Env) (ps : List Char) :
    ∀ (es : List FeedEntry) (st : List Row × List Ev) (e : FeedEntry),
    e ∈ es → env.dbReadFails e.link = true →
    Ev.publish e.link ∈ (es.foldl (process_entry env ps) st).2 := by
  intro es
  induction es with
  | nil => intro st e he _; simp at he
  | cons h t ih =>
    intro st e he hr
    rw [List.foldl_cons]
    rcases List.mem_cons.1 he with rfl | het
    · have hb : is_item_published env st.1 e.link = false :=
        is_item_published_readfail env st.1 e.link hr
      refine fold_trace_mono env ps t _ (Ev.publish e.link) ?_
      rw [process_entry_snd_pub env ps st e hb]
      exact List.mem_append_right _ (List.mem_singleton.2 rfl)
    · exact ih (process_entry env ps st h) e het hr

/-! ## Ampersand-free strings pass through the entity decoder unchanged -/

theorem unescapeGo_no_amp (fuel : Nat) :
    ∀ s : List Char, (∀ c ∈ s, c ≠ '&') → unescapeGo fuel s = s := by
  induction fuel with
  | zero => intro s _; cases s <;> rfl
  | succ n ih =>
    intro s hs
    cases s with
    | nil => rfl
    | cons c cs =>
      unfold unescapeGo
      rw [if_neg (hs c (List.mem_cons_self _ _))]
      rw [ih cs (fun d hd => hs d (List.mem_cons_of_mem _ hd))]

theorem clean_content_no_amp (s : List Char) (h : ∀ c ∈ s, c ≠ '&') :
    clean_content s = s :=
  unescapeGo_no_amp s.length s h

/-! ## The claims -/

/-- C1: for every feed entry whose link already has a row in the publication
ledger (and whose ledger read does not raise, so the Ledger actually reports
it as published), a pipeline run issues no publish call for that link and the
ledger keeps exactly the rows it had for it — the entry is skipped at the
filter step. -/
theorem claim_C1_filter_skips_published (env : Env) (post_status : List Char)
    (db : List Row) (entries : List FeedEntry) (e : FeedEntry)
    (hfeed : env.feed = some entries) (_he : e ∈ entries)
    (hrow : 0 < countLink db e.link) (hread : env.dbReadFails e.link = false) :
    Ev.publish e.link ∉ (post_feed_items env post_status db).2 ∧
    countLink (post_feed_items env post_status db).1 e.link = countLink db e.link := by
  unfold post_feed_items
  rw [hfeed]
  obtain ⟨hc, hm⟩ := fold_published_skip env post_status entries.reverse
    (db, [Ev.fetch]) e.link hrow hread
  refine ⟨?_, hc⟩
  intro hin
  have := hm hin
  simp at this

/-- C2: a ledger row is created only after a successful publish call.  In a
run where the publish for `linkA` fails and some entry carries `linkB` whose
publish succeeds (and whose ledger insert does not raise), `linkB` ends up
recorded, `linkA` stays absent, and in general a link whose publish fails
keeps exactly its previous row count. -/
theorem claim_C2_failure_isolation (env : Env) (post_status : List Char)
    (db : List Row) (entries : List FeedEntry) (linkA linkB : List Char) (pid : Int)
    (hfeed : env.feed = some entries)
    (hA : post_outcome env linkA = none) (hA0 : countLink db linkA = 0)
    (hBmem : ∃ e ∈ entries, e.link = linkB) (hB0 : countLink db linkB = 0)
    (hBpo : post_outcome env linkB = some pid)
    (hBw : env.dbWriteFails linkB = false) :
    countLink (post_feed_items env post_status db).1 linkA = 0 ∧
    0 < countLink (post_feed_items env post_status db).1 linkB ∧
    ∀ l, post_outcome env l = none →
      countLink (post_feed_items env post_status db).1 l = countLink db l := by
  unfold post_feed_items
  rw [hfeed]
  obtain ⟨e, he, hel⟩ := hBmem
  refine ⟨?_, ?_, ?_⟩
  · rw [fold_absent_stable env post_status entries.reverse (db, [Ev.fetch]) linkA hA]
    exact hA0
  · exact fold_recorded env post_status entries.reverse (db, [Ev.fetch]) linkB pid
      ⟨e, List.mem_reverse.2 he, hel⟩ hB0 hBpo hBw
  · intro l hl
    exact fold_absent_stable env post_status entries.reverse (db, [Ev.fetch]) l hl

/-- C3: entries are submitted for publishing in the reverse of their feed
order — for a feed of fresh entries with pairwise-distinct links, the publish
calls happen exactly on the reversed entry list, oldest (last-in-feed)
first. -/
theorem claim_C3_reverse_feed_order (env : Env) (post_status : List Char)
    (db : List Row) (entries : List FeedEntry)
    (hfeed : env.feed = some entries)
    (hnodup : (entries.map (fun e => e.link)).Nodup)
    (hnew : ∀ e ∈ entries, countLink db e.link = 0) :
    publishLinks (post_feed_items env post_status db).2 =
      entries.reverse.map (fun e => e.link) := by
  unfold post_feed_items
  rw [hfeed]
  have hpw0 : entries.Pairwise (fun a b => a.link ≠ b.link) :=
    (List.pairwise_map).1 hnodup
  have hpw : entries.reverse.Pairwise (fun a b => a.link ≠ b.link) := by
    rw [List.pairwise_reverse]
    exact hpw0.imp (fun h heq => h heq.symm)
  rw [fold_order env post_status entries.reverse (db, [Ev.fetch]) hpw
    (fun e he => hnew e (List.mem_reverse.1 he))]
  simp [publishLinks]

/-- C4: `create_post` never propagates an exception: a transport exception
yields `None`; a 401 response yields `None` and the response body is logged;
any other 4xx/5xx (via `raise_for_status`) yields `None` with the body
logged; a success yields the `id` parsed from the response JSON. -/
theorem claim_C4_create_post_total (env : Env) (title content link : List Char)
    (tags : List (List Char)) (status : List Char) :
    (env.postResp link = ReqOutcome.exn →
      (create_post env title content link tags status).1 = none) ∧
    (∀ body pid, env.postResp link = ReqOutcome.resp 401 body pid →
      (create_post env title content link tags status).1 = none ∧
      CPLog.respBody body ∈ (create_post env title content link tags status).2) ∧
    (∀ st body pid, env.postResp link = ReqOutcome.resp st body pid →
      raisesForStatus st →
      (create_post env title content link tags status).1 = none ∧
      CPLog.respBody body ∈ (create_post env title content link tags status).2) ∧
    (∀ st body pid, env.postResp link = ReqOutcome.resp st body pid →
      st ≠ 401 → ¬ raisesForStatus st →
      (create_post env title content link tags status).1 = some pid) := by
  refine ⟨?_, ?_, ?_, ?_⟩
  · intro h
    unfold create_post NO_POST
    rw [if_neg (by simp), h]
  · intro body pid h
    unfold create_post NO_POST
    rw [if_neg (by simp), h]
    dsimp only
    rw [if_pos rfl]
    exact ⟨rfl, by simp⟩
  · intro st body pid h hrs
    unfold create_post NO_POST
    rw [if_neg (by simp), h]
    dsimp only
    by_cases h401 : st = 401
    · rw [if_pos h401]
      exact ⟨rfl, by simp⟩
    · rw [if_neg h401, if_pos hrs]
      exact ⟨rfl, by simp⟩
  · intro st body pid h h401 hrs
    unfold create_post NO_POST
    rw [if_neg (by simp), h]
    dsimp only
    rw [if_neg h401, if_neg hrs]

/-- C5: a 401 (or transport error) on the "who am I" auth check makes
startup abort before the pipeline runs: no feed fetch and no publish call
happens in that invocation, and the ledger is untouched. -/
theorem claim_C5_auth_failure_aborts (env : Env) (db : List Row)
    (hauth : env.authResp = ReqOutcome.exn ∨
      ∃ body pid, env.authResp = ReqOutcome.resp 401 body pid) :
    main_run env db = (db, []) ∧ Ev.fetch ∉ (main_run env db).2 ∧
    ∀ l, Ev.publish l ∉ (main_run env db).2 := by
  have hv : verify_auth env = false := by
    unfold verify_auth
    rcases hauth with h | ⟨body, pid, h⟩
    · rw [h]
    · rw [h]
      dsimp only
      rw [if_pos rfl]
  have hmain : main_run env db = (db, []) := by
    unfold main_run
    cases hi : env.dbInitFails with
    | true => rw [if_pos rfl]
    | false => rw [if_neg (by simp), hv, if_neg (by simp)]
  refine ⟨hmain, ?_, ?_⟩
  · rw [hmain]; simp
  · intro l; rw [hmain]; simp

/-- C6 counterexample: HTML-entity decoding is not idempotent — on the
double-escaped input `&amp;amp;`, decoding once yields `&amp;` and decoding
twice yields `&`, so "decoding twice equals decoding once for every input"
fails. -/
theorem claim_C6_counterexample :
    clean_content (clean_content ("&amp;amp;".toList)) ≠
      clean_content ("&amp;amp;".toList) := by decide

/-- C6 (amended): the decoding step applied by `_clean_content` is idempotent
on every input containing no `&` (on such inputs it is the identity); on
double-escaped inputs it removes exactly one level of escaping per
application, so unrestricted idempotence fails. -/
theorem claim_C6_amended_idempotent_amp_free (s : List Char)
    (h : ∀ c ∈ s, c ≠ '&') :
    clean_content (clean_content s) = clean_content s := by
  rw [clean_content_no_amp s h]
  exact clean_content_no_amp s h

/-- C7: the autolink pass wraps bare URLs (and www-hosts and user@host
tokens) in angle brackets before markdown rendering; in particular the
spec's example input transforms exactly as required. -/
theorem claim_C7_autolink_wraps :
    urlfinder_sub ("Check http://example.com/page?x=1 now".toList) =
      "Check <http://example.com/page?x=1> now".toList ∧
    urlfinder_sub ("see www.foo.com ok".toList) = "see <www.foo.com> ok".toList ∧
    urlfinder_sub ("mail bob@host.org x".toList) = "mail <bob@host.org> x".toList :=
  ⟨by decide, by decide, by decide⟩

/-- C8: for every tag list (including the empty one), the assembled content
carries a `Tags: ` label followed by the space-joined anchors
`<a class="delicioustag" href="{prefix}/t:{tag}">{tag}</a>` in input order,
then the closing markup; with no tags the label is followed by the empty
fragment. -/
theorem claim_C8_tag_fragment (tagBase : List Char) (md : List Char → List Char)
    (title content link : List Char) (tags : List (List Char)) (status : List Char) :
    ∃ pre, (create_post_dict tagBase md title content link tags status).content =
      pre ++ "Tags: ".toList ++
      List.intercalate " ".toList (tags.map (fun t =>
        "<a class=\"delicioustag\" href=\"".toList ++ tagBase ++ "/t:".toList ++ t ++
          "\">".toList ++ t ++ "</a>".toList)) ++
      "</p></li></ul>".toList := by
  refine ⟨"<ul><li><p>\n<a class=\"deliciouslink\" href=\"".toList ++ link ++
    "\" title=\"".toList ++ title ++ "\">".toList ++ title ++
    "</a></p>\n\n".toList ++ md (pre_markdown_content content) ++
    "\n\n<p class=\"taglist\">".toList, ?_⟩
  unfold create_post_dict tag_html_fragment anchor_for_tag
  have hsplit : ("\n\n<p class=\"taglist\">Tags: ".toList : List Char) =
      "\n\n<p class=\"taglist\">".toList ++ "Tags: ".toList := by decide
  rw [hsplit]
  simp [List.append_assoc]

/-- C9: before markdown rendering, every `<blockquote>` opening tag in the
(autolinked) content is rewritten to `<blockquote markdown="1">`: the string
handed to the renderer contains no bare `<blockquote>` occurrence, and its
marked-tag count is the autolinked content's bare count plus its pre-existing
marked count. -/
theorem claim_C9_blockquote_markdown_enabled (content : List Char) :
    countOcc bqPat (pre_markdown_content content) = 0 ∧
    countOcc bqRep (pre_markdown_content content) =
      countOcc bqPat (urlfinder_sub content) + countOcc bqRep (urlfinder_sub content) :=
  ⟨countOcc_bqPat_replaceBQ (urlfinder_sub content),
    countOcc_bqRep_replaceBQ (urlfinder_sub content)⟩

/-- C10: when the ledger read raises, `_is_item_published` reports `False`
(the error is only logged), so an entry with that link is re-submitted for
publishing — its publish call appears in the run's trace — rather than
aborting the run. -/
theorem claim_C10_read_error_resubmits (env : Env) (db : List Row)
    (l post_status : List Char) (hread : env.dbReadFails l = true) :
    is_item_published env db l = false ∧
    (∀ entries e, env.feed = some entries → e ∈ entries → e.link = l →
      Ev.publish l ∈ (post_feed_items env post_status db).2) := by
  refine ⟨is_item_published_readfail env db l hread, ?_⟩
  intro entries e hfeed he hel
  unfold post_feed_items
  rw [hfeed]
  have := fold_readfail_publish env post_status entries.reverse (db, [Ev.fetch]) e
    (List.mem_reverse.2 he) (by rw [hel]; exact hread)
  rw [hel] at this
  exact this

/-! ## Concrete fixtures and witnesses -/

/-- Fixture entry with link `a` (description-style content). -/
def wEntryA : FeedEntry := ⟨"a".toList, "ta".toList, "da".toList, [], none, []⟩

/-- Fixture entry with link `b` (summary fallback, a published date, a
two-word tag term). -/
def wEntryB : FeedEntry :=
  ⟨"b".toList, "tb".toList, [], "sb".toList, some ("2024".toList), ["x y".toList]⟩

/-- Fixture entry with link `c`. -/
def wEntryC : FeedEntry := ⟨"c".toList, "tc".toList, "dc".toList, [], none, []⟩

/-- Fixture ledger row for link `a`. -/
def wRowA : Row := ⟨"a".toList, "ta".toList, "pd".toList, 5⟩

/-- All-healthy world whose feed holds only `wEntryA`. -/
def wEnv1 : Env :=
  ⟨[], id, some [wEntryA], "now".toList, ReqOutcome.resp 200 [] 1,
    fun _ => ReqOutcome.resp 200 [] 1, false, fun _ => false, fun _ => false⟩

/-- World where the publish for link `a` hits a transport exception and every
other publish succeeds with post id 7. -/
def wEnv2 : Env :=
  ⟨[], id, some [wEntryA, wEntryB], "now".toList, ReqOutcome.resp 200 [] 1,
    fun l => if l == "a".toList then ReqOutcome.exn else ReqOutcome.resp 200 ("ok".toList) 7,
    false, fun _ => false, fun _ => false⟩

/-- Healthy world with the newest-first feed `[c, b, a]`. -/
def wEnv3 : Env :=
  ⟨[], id, some [wEntryC, wEntryB, wEntryA], "now".toList, ReqOutcome.resp 200 [] 1,
    fun _ => ReqOutcome.resp 200 [] 3, false, fun _ => false, fun _ => false⟩

/-- World whose create-post endpoint answers 401 with body `denied`. -/
def wEnv4 : Env :=
  ⟨[], id, none, [], ReqOutcome.resp 200 [] 1,
    fun _ => ReqOutcome.resp 401 ("denied".toList) 0, false, fun _ => false, fun _ => false⟩

/-- World whose auth check answers 401. -/
def wEnv5 : Env :=
  ⟨[], id, some [wEntryA], [], ReqOutcome.resp 401 ("no".toList) 0,
    fun _ => ReqOutcome.resp 200 [] 1, false, fun _ => false, fun _ => false⟩

/-- World where the ledger read for link `a` raises. -/
def wEnv10 : Env :=
  ⟨[], id, some [wEntryA], [], ReqOutcome.resp 200 [] 1,
    fun _ => ReqOutcome.resp 200 [] 9, false, fun l => l == "a".toList, fun _ => false⟩

/-- Witness for C1 at a concrete already-published entry. -/
theorem claim_C1_witness :
    0 < countLink [wRowA] wEntryA.link ∧
    Ev.publish wEntryA.link ∉ (post_feed_items wEnv1 ("publish".toList) [wRowA]).2 ∧
    countLink (post_feed_items wEnv1 ("publish".toList) [wRowA]).1 wEntryA.link =
      countLink [wRowA] wEntryA.link :=
  ⟨by decide, claim_C1_filter_skips_published wEnv1 ("publish".toList) [wRowA]
    [wEntryA] wEntryA rfl (by decide) (by decide) rfl⟩

/-- Witness for C2: entry `a` fails to publish, entry `b` succeeds. -/
theorem claim_C2_witness :
    post_outcome wEnv2 wEntryA.link = none ∧
    post_outcome wEnv2 wEntryB.link = some 7 ∧
    countLink (post_feed_items wEnv2 ("publish".toList) []).1 wEntryA.link = 0 ∧
    0 < countLink (post_feed_items wEnv2 ("publish".toList) []).1 wEntryB.link :=
  have h := claim_C2_failure_isolation wEnv2 ("publish".toList) [] [wEntryA, wEntryB]
    wEntryA.link wEntryB.link 7 rfl (by decide) (by decide)
    ⟨wEntryB, by decide, rfl⟩ (by decide) (by decide) rfl
  ⟨by decide, by decide, h.1, h.2.1⟩

/-- Witness for C3 on the three-entry feed `[c, b, a]`. -/
theorem claim_C3_witness :
    ([wEntryC, wEntryB, wEntryA].map (fun e => e.link)).Nodup ∧
    publishLinks (post_feed_items wEnv3 ("publish".toList) []).2 =
      [wEntryA.link, wEntryB.link, wEntryC.link] :=
  ⟨by decide, claim_C3_reverse_feed_order wEnv3 ("publish".toList) []
    [wEntryC, wEntryB, wEntryA] rfl (by decide) (by decide)⟩

/-- Witness for C4 at a concrete 401 response. -/
theorem claim_C4_witness :
    wEnv4.postResp ("u".toList) = ReqOutcome.resp 401 ("denied".toList) 0 ∧
    (create_post wEnv4 [] [] ("u".toList) [] []).1 = none ∧
    CPLog.respBody ("denied".toList) ∈ (create_post wEnv4 [] [] ("u".toList) [] []).2 :=
  have h := (claim_C4_create_post_total wEnv4 [] [] ("u".toList) [] []).2.1
    ("denied".toList) 0 rfl
  ⟨rfl, h.1, h.2⟩

/-- Witness for C5 at a concrete 401 auth response. -/
theorem claim_C5_witness :
    main_run wEnv5 [] = ([], []) ∧ Ev.fetch ∉ (main_run wEnv5 []).2 :=
  have h := claim_C5_auth_failure_aborts wEnv5 [] (Or.inr ⟨"no".toList, 0, rfl⟩)
  ⟨h.1, h.2.1⟩

/-- Witness for the amended C6 on an ampersand-free input. -/
theorem claim_C6_amended_witness :
    (∀ c ∈ ("hello".toList : List Char), c ≠ '&') ∧
    clean_content (clean_content ("hello".toList)) = clean_content ("hello".toList) :=
  ⟨by decide, claim_C6_amended_idempotent_amp_free ("hello".toList) (by decide)⟩

/-- Witness for C10: the read for link `a` raises, and the already-recorded
entry is nevertheless re-submitted. -/
theorem claim_C10_witness :
    wEnv10.dbReadFails wEntryA.link = true ∧
    is_item_published wEnv10 [wRowA] wEntryA.link = false ∧
    Ev.publish wEntryA.link ∈ (post_feed_items wEnv10 ("publish".toList) [wRowA]).2 :=
  have h := claim_C10_read_error_resubmits wEnv10 [wRowA] wEntryA.link
    ("publish".toList) rfl
  ⟨rfl, h.1, h.2 [wEntryA] wEntryA rfl (by decide) rfl⟩
